import Mathlib

/-!
Shallow embedding of the measurement core of `zap.h` (a single-header C
micro-benchmarking engine) and proofs about its loop controller, statistics
kernel, comparator, baseline store and name filter.

Machine integers (`uint64_t`) are modelled as `ℕ` with explicit reduction
modulo `2 ^ 64` wherever the C program can overflow or wrap; `double`
arithmetic is modelled as exact arithmetic on `ℚ` (and on `ℝ` where the code
calls `sqrt`).  The monotonic clock `zap_now_ns` is modelled as an ambient
sequence `clock : ℕ → ℕ` of readings consumed left to right; the state keeps
a cursor `clk` into that sequence.
-/

namespace Zap

def U64 : ℕ := 2 ^ 64

/-- `uint64_t` subtraction `a - b` (two's-complement wraparound). -/
def wsub (a b : ℕ) : ℕ := (a % U64 + (U64 - b % U64)) % U64

/-- On in-range, ordered arguments `wsub` is plain subtraction. -/
theorem wsub_eq_sub {a b : ℕ} (hb : b ≤ a) (ha : a < U64) :
    wsub a b = a - b := by
  have hb' : b < U64 := lt_of_le_of_lt hb ha
  unfold wsub
  rw [Nat.mod_eq_of_lt ha, Nat.mod_eq_of_lt hb']
  have h1 : a + (U64 - b) = (a - b) + U64 := by omega
  rw [h1, Nat.add_mod_right, Nat.mod_eq_of_lt (by omega)]

theorem wsub_self {a : ℕ} (ha : a < U64) : wsub a a = 0 := by
  rw [wsub_eq_sub le_rfl ha, Nat.sub_self]

/-- The live benchmark state `zap_t` (`struct criterion` in the source).
Fields that only drive terminal output (`name`, `status_printed`) and the
throughput annotation are omitted; the C pair `samples`/`sample_count` is
modelled as a single list (the count is its length, kept equal by the code
since every store is paired with one increment).  `sampleN` is a ghost
history recording, next to each stored sample, the controller's
`iterations` value at the moment the sample was emitted (the spec's
`iterations_per_sample`). -/
structure zap_t where
  iterations : ℕ
  current_iter : ℕ
  start_time : ℕ
  samples : List ℚ
  sampleN : List ℕ
  sample_capacity : ℕ
  warmup_complete : Bool
  measuring : Bool
  warmup_time_ns : ℕ
  measurement_time_ns : ℕ
  clk : ℕ
  deriving Repr, DecidableEq

def zap_t.sample_count (c : zap_t) : ℕ := c.samples.length

/-- `zap_loop_start` (zap.h, lines 1088–1156): returns the C `bool` result
together with the updated state. -/
def zap_loop_start (clock : ℕ → ℕ) (c : zap_t) : Bool × zap_t :=
  if c.warmup_complete = false then
    -- Warmup phase: run for warmup time while calibrating iterations
    let now := clock c.clk
    let c := { c with clk := c.clk + 1 }
    if c.start_time = 0 then
      -- First warmup iteration
      (true, { c with start_time := now, current_iter := now })
    else
      let batch_elapsed := wsub now c.current_iter
      let total_elapsed := wsub now c.start_time
      -- Calibrate: target 1ms per iteration batch
      let iters :=
        if batch_elapsed > 0 ∧ batch_elapsed < 1000000 then
          let factor := 1000000 / batch_elapsed
          if factor > 1 then
            let i := (c.iterations * factor) % U64
            if i > 1000000000 then 1000000000 else i
          else (c.iterations * 2) % U64
        else if batch_elapsed > 10000000 then
          if c.iterations > 2 then c.iterations / 2 else 1
        else c.iterations
      let c := { c with iterations := iters }
      let c :=
        if total_elapsed ≥ c.warmup_time_ns then
          { c with warmup_complete := true, start_time := 0, measuring := false }
        else c
      (true, { c with current_iter := now })
  else
    -- Measurement phase
    if c.sample_count ≥ c.sample_capacity then
      (false, c)
    else
      let now := clock c.clk
      let c := { c with clk := c.clk + 1 }
      if c.start_time = 0 then
        -- First measurement iteration
        let c := { c with start_time := now }
        let now2 := clock c.clk
        (true, { c with measuring := true, current_iter := now2, clk := c.clk + 1 })
      else
        let elapsed := wsub now c.start_time
        if elapsed ≥ c.measurement_time_ns ∧ c.sample_count ≥ 10 then
          (false, c)
        else
          let now2 := clock c.clk
          (true, { c with measuring := true, current_iter := now2, clk := c.clk + 1 })

/-- `zap_loop_end` (zap.h, lines 1158–1180). -/
def zap_loop_end (clock : ℕ → ℕ) (c : zap_t) : zap_t :=
  if ¬(c.measuring = true) ∨ ¬(c.warmup_complete = true) then c
  else
    let endT := clock c.clk
    let c := { c with clk := c.clk + 1 }
    let elapsed := wsub endT c.current_iter
    -- Store sample (time per iteration in nanoseconds)
    let time_per_iter : ℚ := (elapsed : ℚ) / (c.iterations : ℚ)
    let c :=
      if c.sample_count < c.sample_capacity then
        { c with samples := c.samples ++ [time_per_iter],
                 sampleN := c.sampleN ++ [c.iterations] }
      else c
    -- Fine-tune iterations if samples are too short
    let c :=
      if elapsed < 500000 then
        let i := (c.iterations * 2) % U64
        { c with iterations := if i > 1000000000 then 1000000000 else i }
      else c
    { c with measuring := false }

/-- The user-side driver `while (zap_loop_start(c)) { body; zap_loop_end(c); }`,
run for at most `n` batches. -/
def runSteps (clock : ℕ → ℕ) : ℕ → zap_t → zap_t
  | 0, c => c
  | n + 1, c =>
    match zap_loop_start clock c with
    | (false, c') => c'
    | (true, c') => runSteps clock n (zap_loop_end clock c')

/-! ### Loop-controller invariants -/

theorem chain'_last_le {l : List ℕ} {a : ℕ} :
    List.Chain' (· ≤ ·) (l ++ [a]) ↔
      List.Chain' (· ≤ ·) l ∧ ∀ x ∈ l.getLast?, x ≤ a := by
  rw [List.chain'_append]
  simp

/-- Measurement-phase invariant: warmup is over, the live iteration count is
within the `10⁹` clamp, the ghost history of per-sample iteration counts is
non-decreasing and dominated by the live count, and every recorded count is
within the clamp. -/
def MeasInv (c : zap_t) : Prop :=
  c.warmup_complete = true ∧ c.iterations ≤ 10 ^ 9 ∧
    List.Chain' (· ≤ ·) (c.sampleN ++ [c.iterations]) ∧
    ∀ x ∈ c.sampleN, x ≤ 10 ^ 9

theorem measInv_start (clock : ℕ → ℕ) (c : zap_t) (h : MeasInv c) :
    MeasInv (zap_loop_start clock c).2 := by
  obtain ⟨hw, hi, hch, hb⟩ := h
  have hne : ¬(c.warmup_complete = false) := by simp [hw]
  unfold zap_loop_start
  rw [if_neg hne]
  dsimp only [zap_t.sample_count]
  split
  · exact ⟨hw, hi, hch, hb⟩
  · split
    · exact ⟨hw, hi, hch, hb⟩
    · split
      · exact ⟨hw, hi, hch, hb⟩
      · exact ⟨hw, hi, hch, hb⟩

theorem measInv_end (clock : ℕ → ℕ) (c : zap_t) (h : MeasInv c) :
    MeasInv (zap_loop_end clock c) := by
  obtain ⟨hw, hi, hch, hb⟩ := h
  have hdouble : ∀ i : ℕ, i ≤ 10 ^ 9 →
      i ≤ (if i * 2 % U64 > 1000000000 then 1000000000 else i * 2 % U64) ∧
      (if i * 2 % U64 > 1000000000 then 1000000000 else i * 2 % U64) ≤ 10 ^ 9 := by
    intro i hile
    have hmod : i * 2 % U64 = i * 2 := by
      apply Nat.mod_eq_of_lt
      unfold U64
      omega
    rw [hmod]
    split <;> omega
  have hstore : ∀ x ∈ c.sampleN ++ [c.iterations], x ≤ 10 ^ 9 := by
    intro x hx
    rcases List.mem_append.mp hx with hx | hx
    · exact hb x hx
    · rw [List.mem_singleton] at hx
      omega
  unfold zap_loop_end
  split
  · exact ⟨hw, hi, hch, hb⟩
  · dsimp only [zap_t.sample_count]
    split
    · -- elapsed < 0.5 ms: iterations doubled with clamp
      split
      · -- sample stored first
        dsimp only
        have hd := hdouble c.iterations hi
        refine ⟨hw, hd.2, ?_, hstore⟩
        rw [chain'_last_le]
        refine ⟨hch, ?_⟩
        intro x hx
        rw [List.getLast?_concat, Option.mem_some_iff] at hx
        exact hx ▸ hd.1
      · -- buffer full: sample dropped
        dsimp only
        have hd := hdouble c.iterations hi
        refine ⟨hw, hd.2, ?_, hb⟩
        rw [chain'_last_le] at hch ⊢
        exact ⟨hch.1, fun x hx => (hch.2 x hx).trans hd.1⟩
    · -- iterations unchanged
      split
      · -- sample stored
        dsimp only
        refine ⟨hw, hi, ?_, hstore⟩
        rw [chain'_last_le]
        refine ⟨hch, ?_⟩
        intro x hx
        rw [List.getLast?_concat, Option.mem_some_iff] at hx
        exact le_of_eq hx.symm
      · exact ⟨hw, hi, hch, hb⟩

theorem measInv_runSteps (clock : ℕ → ℕ) (n : ℕ) :
    ∀ c : zap_t, MeasInv c → MeasInv (runSteps clock n c) := by
  induction n with
  | zero => exact fun c h => h
  | succ n ih =>
    intro c h
    unfold runSteps
    have hstart := measInv_start clock c h
    cases hs : zap_loop_start clock c with
    | mk b c' =>
      rw [hs] at hstart
      cases b
      · exact hstart
      · exact ih _ (measInv_end clock c' hstart)

/-- Characterization of the measurement-phase `zap_loop_start` result:
`false` is returned exactly when the buffer is full, or when the batch is
past the time budget with at least 10 samples already emitted. -/
theorem zap_loop_start_false_iff (clock : ℕ → ℕ) (c : zap_t)
    (hw : c.warmup_complete = true) :
    (zap_loop_start clock c).1 = false ↔
      (c.sample_capacity ≤ c.sample_count ∨
        (c.sample_count < c.sample_capacity ∧ c.start_time ≠ 0 ∧
          c.measurement_time_ns ≤ wsub (clock c.clk) c.start_time ∧
          10 ≤ c.sample_count)) := by
  have hne : ¬(c.warmup_complete = false) := by simp [hw]
  unfold zap_loop_start
  rw [if_neg hne]
  dsimp only [zap_t.sample_count]
  split
  · simp_all [zap_t.sample_count]
  · split
    · simp_all [zap_t.sample_count]
    · split
      · simp_all [zap_t.sample_count]
      · simp_all [zap_t.sample_count]

/-! ### Claim C1 -/

/-- Timer trace for the C1 counterexample: warmup scales `N` to the `10⁹`
clamp via the factor path, then a batch of ~0.6 ms takes the unclamped
doubling branch on the last warmup step. -/
def c1ClockList : List ℕ :=
  [1, 2, 3, 600003, 600010, 600020, 600030, 600040, 600050, 600060]

def c1Clock (i : ℕ) : ℕ := c1ClockList.getD i 700000

def c1Init : zap_t :=
  { iterations := 1, current_iter := 0, start_time := 0, samples := [],
    sampleN := [], sample_capacity := 100, warmup_complete := false,
    measuring := false, warmup_time_ns := 600000,
    measurement_time_ns := 10 ^ 18, clk := 0 }

/-- C1 is false as stated: on a monotone timer trace, the warmup doubling
branch (taken when `floor(1 ms / batch_elapsed) ≤ 1`) is not clamped, so a
run reaches `N = 2·10⁹ > 10⁹` and records it with the first sample; the
end-of-batch doubling then clamps back down to `10⁹`, so the recorded
iteration counts `[2·10⁹, 10⁹]` are also not non-decreasing. -/
theorem c1_unclamped_warmup_doubling_cx :
    (∀ i j : ℕ, i ≤ j → c1Clock i ≤ c1Clock j) ∧
      (runSteps c1Clock 6 c1Init).sampleN = [2000000000, 1000000000] ∧
      ¬(List.Chain' (· ≤ ·) ((runSteps c1Clock 6 c1Init).sampleN) ∧
          ∀ x ∈ (runSteps c1Clock 6 c1Init).sampleN, x ≤ 10 ^ 9) := by
  have hlist : (runSteps c1Clock 6 c1Init).sampleN = [2000000000, 1000000000] := by
    decide
  refine ⟨?_, hlist, ?_⟩
  · have hstep : ∀ i : ℕ, c1Clock i ≤ c1Clock (i + 1) := by
      intro i
      match i with
      | 0 => decide
      | 1 => decide
      | 2 => decide
      | 3 => decide
      | 4 => decide
      | 5 => decide
      | 6 => decide
      | 7 => decide
      | 8 => decide
      | 9 => decide
      | n + 10 =>
        have h1 : c1Clock (n + 10) = 700000 :=
          List.getD_eq_default _ _ (by simp [c1ClockList])
        have h2 : c1Clock (n + 10 + 1) = 700000 :=
          List.getD_eq_default _ _ (by simp [c1ClockList])
        exact le_of_eq (h1.trans h2.symm)
    exact fun i j h => monotone_nat_of_le_succ hstep h
  · rw [hlist]
    rintro ⟨hc, -⟩
    simp [List.chain'_cons] at hc

/-- C1 (amended): the factor-multiplication growth path and the
end-of-batch doubling are clamped to `10⁹`, but the warmup doubling step is
not; consequently the claimed invariant holds for the measurement phase
provided `N ≤ 10⁹` when warmup completes: from any measurement state whose
iteration count is within the clamp, every recorded per-sample iteration
count is non-decreasing along the run and never exceeds `10⁹`. -/
theorem c1_recorded_iterations_monotone_clamped (clock : ℕ → ℕ) (c : zap_t)
    (n : ℕ) (hw : c.warmup_complete = true) (hi : c.iterations ≤ 10 ^ 9)
    (hs : c.sampleN = []) :
    List.Chain' (· ≤ ·) ((runSteps clock n c).sampleN) ∧
      ∀ x ∈ (runSteps clock n c).sampleN, x ≤ 10 ^ 9 := by
  have hInv : MeasInv c := by
    refine ⟨hw, hi, ?_, ?_⟩
    · rw [hs]
      simp
    · rw [hs]
      simp
  obtain ⟨-, -, hch, hb⟩ := measInv_runSteps clock n c hInv
  exact ⟨(chain'_last_le.mp hch).1, hb⟩

def c1MeasState : zap_t :=
  { iterations := 5, current_iter := 0, start_time := 0, samples := [],
    sampleN := [], sample_capacity := 3, warmup_complete := true,
    measuring := false, warmup_time_ns := 0, measurement_time_ns := 1000,
    clk := 0 }

/-- Witness instantiating `c1_recorded_iterations_monotone_clamped` on a
concrete measurement state and timer. -/
theorem c1_recorded_iterations_monotone_clamped_witness :
    List.Chain' (· ≤ ·) ((runSteps (fun _ => 0) 2 c1MeasState).sampleN) ∧
      ∀ x ∈ (runSteps (fun _ => 0) 2 c1MeasState).sampleN, x ≤ 10 ^ 9 :=
  c1_recorded_iterations_monotone_clamped (fun _ => 0) c1MeasState 2 rfl
    (by norm_num [c1MeasState]) rfl

/-! ### Claim C3 -/

/-- C3: with capacity at least 10 (after warmup), whenever `zap_loop_start`
returns `false` at least 10 samples have been emitted, and time-based
termination happens exactly when the elapsed measurement time has reached
the budget and at least 10 samples are already in the buffer. -/
theorem c3_time_termination_needs_ten_samples (clock : ℕ → ℕ) (c : zap_t)
    (hw : c.warmup_complete = true) (hcap : 10 ≤ c.sample_capacity) :
    ((zap_loop_start clock c).1 = false → 10 ≤ c.sample_count) ∧
      (c.start_time ≠ 0 → c.sample_count < c.sample_capacity →
        ((zap_loop_start clock c).1 = false ↔
          c.measurement_time_ns ≤ wsub (clock c.clk) c.start_time ∧
            10 ≤ c.sample_count)) := by
  constructor
  · intro hf
    rcases (zap_loop_start_false_iff clock c hw).mp hf with h | h
    · omega
    · exact h.2.2.2
  · intro hst hlen
    rw [zap_loop_start_false_iff clock c hw]
    constructor
    · rintro (h | h)
      · omega
      · exact ⟨h.2.2.1, h.2.2.2⟩
    · intro h
      exact Or.inr ⟨hlen, hst, h.1, h.2⟩

def c3State : zap_t :=
  { iterations := 1, current_iter := 0, start_time := 7, samples :=
      List.replicate 12 (1 : ℚ), sampleN := List.replicate 12 1,
    sample_capacity := 20, warmup_complete := true, measuring := false,
    warmup_time_ns := 0, measurement_time_ns := 10, clk := 0 }

/-- Witness instantiating `c3_time_termination_needs_ten_samples` at a
concrete state where the time budget has run out. -/
theorem c3_time_termination_needs_ten_samples_witness :
    ((zap_loop_start (fun _ => 1000) c3State).1 = false →
        10 ≤ c3State.sample_count) ∧
      (c3State.start_time ≠ 0 → c3State.sample_count < c3State.sample_capacity →
        ((zap_loop_start (fun _ => 1000) c3State).1 = false ↔
          c3State.measurement_time_ns ≤
              wsub ((fun _ : ℕ => 1000) c3State.clk) c3State.start_time ∧
            10 ≤ c3State.sample_count)) :=
  c3_time_termination_needs_ten_samples (fun _ => 1000) c3State rfl
    (by norm_num [c3State])

/-! ### Claim C2 -/

/-- State description after `k` completed measurement batches (run from a
measurement-entry state `c₀` on timer `clock`): each batch consumes three
clock reads and stores one sample. -/
def BatchInv (clock : ℕ → ℕ) (c₀ : zap_t) (k : ℕ) (s : zap_t) : Prop :=
  s.warmup_complete = true ∧ s.measuring = false ∧ s.samples.length = k ∧
    s.sample_capacity = c₀.sample_capacity ∧
    s.measurement_time_ns = c₀.measurement_time_ns ∧
    s.clk = c₀.clk + 3 * k ∧
    s.start_time = (if k = 0 then 0 else clock c₀.clk)

theorem batchInv_step (clock : ℕ → ℕ) (c₀ : zap_t) (k : ℕ) (s : zap_t)
    (hmono : ∀ i j : ℕ, i ≤ j → clock i ≤ clock j)
    (hU : ∀ i : ℕ, clock i < U64) (hpos : 0 < clock c₀.clk)
    (hbudget : clock (c₀.clk + 3 * c₀.sample_capacity) - clock c₀.clk <
      c₀.measurement_time_ns)
    (hk : k < c₀.sample_capacity) (h : BatchInv clock c₀ k s) :
    (zap_loop_start clock s).1 = true ∧
      BatchInv clock c₀ (k + 1)
        (zap_loop_end clock (zap_loop_start clock s).2) := by
  obtain ⟨hw, hm, hlen, hcap, hM, hclk, hst⟩ := h
  have hne : ¬(s.warmup_complete = false) := by simp [hw]
  have hcap' : ¬(s.sample_count ≥ s.sample_capacity) := by
    dsimp only [zap_t.sample_count]
    omega
  rcases Nat.eq_zero_or_pos k with hk0 | hk1
  · -- first measurement batch: start_time is still 0
    subst hk0
    have hst0 : s.start_time = 0 := by simpa using hst
    have hstart : zap_loop_start clock s =
        (true, { s with start_time := clock s.clk, measuring := true,
                        current_iter := clock (s.clk + 1), clk := s.clk + 2 }) := by
      unfold zap_loop_start
      rw [if_neg hne, if_neg hcap']
      dsimp only
      rw [if_pos hst0]
    rw [hstart]
    refine ⟨rfl, ?_⟩
    unfold zap_loop_end
    rw [if_neg (by simp [hw])]
    dsimp only [zap_t.sample_count]
    split
    · split
      · exact ⟨hw, rfl, by simp [hlen], hcap, hM,
          by simp only []; omega, by simp [hclk]⟩
      · rename_i hno
        exact absurd (by omega : s.samples.length < s.sample_capacity) hno
    · split
      · exact ⟨hw, rfl, by simp [hlen], hcap, hM,
          by simp only []; omega, by simp [hclk]⟩
      · rename_i hno
        exact absurd (by omega : s.samples.length < s.sample_capacity) hno
  · -- later batches: the time check is evaluated but cannot fire
    have hstne : s.start_time ≠ 0 := by
      rw [hst, if_neg (by omega)]
      omega
    have helapsed : wsub (clock s.clk) s.start_time <
        s.measurement_time_ns := by
      rw [hst, if_neg (by omega), hclk]
      rw [wsub_eq_sub (hmono _ _ (by omega)) (hU _)]
      have h1 : clock (c₀.clk + 3 * k) ≤
          clock (c₀.clk + 3 * c₀.sample_capacity) :=
        hmono _ _ (by omega)
      omega
    have hstart : zap_loop_start clock s =
        (true, { s with measuring := true,
                        current_iter := clock (s.clk + 1), clk := s.clk + 2 }) := by
      unfold zap_loop_start
      rw [if_neg hne, if_neg hcap']
      dsimp only
      rw [if_neg hstne]
      rw [if_neg (by dsimp only [zap_t.sample_count]; omega)]
    rw [hstart]
    refine ⟨rfl, ?_⟩
    unfold zap_loop_end
    rw [if_neg (by simp [hw])]
    dsimp only [zap_t.sample_count]
    split
    · split
      · refine ⟨hw, rfl, by simp [hlen], hcap, hM, by simp only []; omega, ?_⟩
        simp only [hst]
        rw [if_neg (by omega : ¬(k = 0)), if_neg (by omega : ¬(k + 1 = 0))]
      · rename_i hno
        exact absurd (by omega : s.samples.length < s.sample_capacity) hno
    · split
      · refine ⟨hw, rfl, by simp [hlen], hcap, hM, by simp only []; omega, ?_⟩
        simp only [hst]
        rw [if_neg (by omega : ¬(k = 0)), if_neg (by omega : ¬(k + 1 = 0))]
      · rename_i hno
        exact absurd (by omega : s.samples.length < s.sample_capacity) hno

theorem batchInv_runSteps (clock : ℕ → ℕ) (c₀ : zap_t)
    (hmono : ∀ i j : ℕ, i ≤ j → clock i ≤ clock j)
    (hU : ∀ i : ℕ, clock i < U64) (hpos : 0 < clock c₀.clk)
    (hbudget : clock (c₀.clk + 3 * c₀.sample_capacity) - clock c₀.clk <
      c₀.measurement_time_ns) :
    ∀ (j k : ℕ) (s : zap_t), BatchInv clock c₀ k s →
      k + j ≤ c₀.sample_capacity →
      BatchInv clock c₀ (k + j) (runSteps clock j s) := by
  intro j
  induction j with
  | zero => intro k s h _; exact h
  | succ j ih =>
    intro k s h hle
    have hstep := batchInv_step clock c₀ k s hmono hU hpos hbudget
      (by omega) h
    unfold runSteps
    cases hs : zap_loop_start clock s with
    | mk b c' =>
      rw [hs] at hstep
      cases b
      · exact absurd hstep.1 (by simp)
      · have := ih (k + 1) _ hstep.2 (by omega)
        rw [show k + (j + 1) = k + 1 + j by omega]
        exact this

/-- C2: from a measurement-entry state with an empty buffer, if the time
budget strictly exceeds the wall time of `sample_capacity` batches, then
exactly `sample_capacity` samples are emitted (one per batch) and the next
`zap_loop_start` call returns `false`. -/
theorem c2_exactly_capacity_samples (clock : ℕ → ℕ) (c₀ : zap_t)
    (hmono : ∀ i j : ℕ, i ≤ j → clock i ≤ clock j)
    (hU : ∀ i : ℕ, clock i < U64) (hpos : 0 < clock c₀.clk)
    (hbudget : clock (c₀.clk + 3 * c₀.sample_capacity) - clock c₀.clk <
      c₀.measurement_time_ns)
    (hw : c₀.warmup_complete = true) (hm : c₀.measuring = false)
    (hs : c₀.samples = []) (hst : c₀.start_time = 0) :
    (runSteps clock c₀.sample_capacity c₀).samples.length =
        c₀.sample_capacity ∧
      (zap_loop_start clock (runSteps clock c₀.sample_capacity c₀)).1 =
        false := by
  have h0 : BatchInv clock c₀ 0 c₀ :=
    ⟨hw, hm, by simp [hs], rfl, rfl, by omega, by simp [hst]⟩
  have hfin := batchInv_runSteps clock c₀ hmono hU hpos hbudget
    c₀.sample_capacity 0 c₀ h0 (by omega)
  rw [Nat.zero_add] at hfin
  obtain ⟨hw', _, hlen, hcap, _, _, _⟩ := hfin
  refine ⟨hlen, ?_⟩
  rw [zap_loop_start_false_iff clock _ hw']
  left
  dsimp only [zap_t.sample_count]
  omega

def c2Clock (i : ℕ) : ℕ := min (i + 1) (2 ^ 63)

def c2State : zap_t :=
  { iterations := 1, current_iter := 0, start_time := 0, samples := [],
    sampleN := [], sample_capacity := 2, warmup_complete := true,
    measuring := false, warmup_time_ns := 0, measurement_time_ns := 100,
    clk := 0 }

/-- Witness instantiating `c2_exactly_capacity_samples` on a two-sample run
with a slow, ample budget. -/
theorem c2_exactly_capacity_samples_witness :
    (runSteps c2Clock c2State.sample_capacity c2State).samples.length =
        c2State.sample_capacity ∧
      (zap_loop_start c2Clock
          (runSteps c2Clock c2State.sample_capacity c2State)).1 = false :=
  c2_exactly_capacity_samples c2Clock c2State
    (fun i j h => min_le_min (by omega) le_rfl)
    (fun i => lt_of_le_of_lt (min_le_right _ _) (by norm_num [U64]))
    (by norm_num [c2Clock, c2State])
    (by norm_num [c2Clock, c2State])
    rfl rfl rfl rfl

/-! ### Claim C10 -/

/-- C10: during warmup, a batch observed at the same timestamp as the
previous one (`batch_elapsed = 0`) skips the iteration-scaling step
entirely: the `1 ms / batch_elapsed` division is guarded by
`batch_elapsed > 0`, and `N` is left unchanged. -/
theorem c10_zero_batch_elapsed_no_scaling (clock : ℕ → ℕ) (c : zap_t)
    (hw : c.warmup_complete = false) (hst : c.start_time ≠ 0)
    (heq : clock c.clk = c.current_iter) (hlt : c.current_iter < U64) :
    (zap_loop_start clock c).1 = true ∧
      (zap_loop_start clock c).2.iterations = c.iterations := by
  have h0 : wsub (clock c.clk) c.current_iter = 0 := by
    rw [heq]
    exact wsub_self hlt
  unfold zap_loop_start
  rw [if_pos hw]
  dsimp only
  rw [if_neg hst, h0]
  rw [if_neg (by omega : ¬((0 : ℕ) > 0 ∧ (0 : ℕ) < 1000000))]
  rw [if_neg (by omega : ¬((0 : ℕ) > 10000000))]
  split
  · exact ⟨rfl, rfl⟩
  · exact ⟨rfl, rfl⟩

def c10State : zap_t :=
  { iterations := 42, current_iter := 500, start_time := 100, samples := [],
    sampleN := [], sample_capacity := 100, warmup_complete := false,
    measuring := false, warmup_time_ns := 1000000000,
    measurement_time_ns := 3000000000, clk := 0 }

/-- Witness instantiating `c10_zero_batch_elapsed_no_scaling` at a concrete
warmup state whose clock repeats the previous timestamp. -/
theorem c10_zero_batch_elapsed_no_scaling_witness :
    (zap_loop_start (fun _ => 500) c10State).1 = true ∧
      (zap_loop_start (fun _ => 500) c10State).2.iterations =
        c10State.iterations :=
  c10_zero_batch_elapsed_no_scaling (fun _ => 500) c10State rfl
    (by norm_num [c10State]) rfl (by norm_num [c10State, U64])

/-! ### Statistics kernel -/

/-- `zap_mean` (zap.h, lines 759–766). -/
def zap_mean (samples : List ℚ) : ℚ :=
  if samples.length = 0 then 0 else samples.sum / (samples.length : ℚ)

/-- `zap_median` (zap.h, lines 768–775); the `qsort` call is modelled by a
comparison sort on the same ascending order. -/
def zap_median (samples : List ℚ) : ℚ :=
  if samples.length = 0 then 0
  else
    let s := samples.insertionSort (· ≤ ·)
    if samples.length % 2 = 0 then
      (s.getD (samples.length / 2 - 1) 0 + s.getD (samples.length / 2) 0) / 2
    else s.getD (samples.length / 2) 0

/-- `zap_percentile` (zap.h, lines 777–788).  The C cast `(size_t)rank`
truncates toward zero, which for the nonnegative ranks arising from
`0 ≤ p ≤ 100` is `Int.toNat ∘ Int.floor`. -/
def zap_percentile (sorted_samples : List ℚ) (p : ℚ) : ℚ :=
  if sorted_samples.length = 0 then 0
  else if sorted_samples.length = 1 then sorted_samples.getD 0 0
  else
    let rank : ℚ := (p / 100) * ((sorted_samples.length : ℚ) - 1)
    let lower : ℕ := Int.toNat ⌊rank⌋
    let upper : ℕ :=
      if lower + 1 ≥ sorted_samples.length then sorted_samples.length - 1
      else lower + 1
    let frac : ℚ := rank - (lower : ℚ)
    sorted_samples.getD lower 0 * (1 - frac) + sorted_samples.getD upper 0 * frac

theorem percentile_even (xs : List ℚ) (m : ℕ) (hm : xs.length = m + m)
    (h1 : 1 ≤ m) :
    zap_percentile xs 50 = (xs.getD (m - 1) 0 + xs.getD m 0) / 2 := by
  unfold zap_percentile
  rw [if_neg (by omega), if_neg (by omega)]
  dsimp only
  have hrank : ((50 : ℚ) / 100) * ((xs.length : ℚ) - 1) = (m : ℚ) - 1 / 2 := by
    rw [hm]
    push_cast
    ring
  rw [hrank]
  have hfloor : ⌊(m : ℚ) - 1 / 2⌋ = (m : ℤ) - 1 := by
    rw [Int.floor_eq_iff]
    constructor
    · push_cast
      linarith [(by exact_mod_cast h1 : (1 : ℚ) ≤ (m : ℚ))]
    · push_cast
      linarith
  rw [hfloor]
  have htn : ((m : ℤ) - 1).toNat = m - 1 := by omega
  rw [htn]
  have hup : ¬(m - 1 + 1 ≥ xs.length) := by omega
  rw [if_neg hup]
  have hm1 : m - 1 + 1 = m := by omega
  rw [hm1]
  have hcast : ((m - 1 : ℕ) : ℚ) = (m : ℚ) - 1 := by
    push_cast [h1]
    ring
  rw [hcast]
  ring

theorem percentile_odd (xs : List ℚ) (m : ℕ) (hm : xs.length = 2 * m + 1)
    (h1 : 1 ≤ m) :
    zap_percentile xs 50 = xs.getD m 0 := by
  unfold zap_percentile
  rw [if_neg (by omega), if_neg (by omega)]
  dsimp only
  have hrank : ((50 : ℚ) / 100) * ((xs.length : ℚ) - 1) = (m : ℚ) := by
    rw [hm]
    push_cast
    ring
  rw [hrank, Int.floor_natCast, Int.toNat_natCast]
  have hup : ¬(m + 1 ≥ xs.length) := by omega
  rw [if_neg hup]
  ring

theorem median_even (xs : List ℚ) (m : ℕ) (hm : xs.length = m + m)
    (h1 : 1 ≤ m) (hs : List.Sorted (· ≤ ·) xs) :
    zap_median xs = (xs.getD (m - 1) 0 + xs.getD m 0) / 2 := by
  unfold zap_median
  rw [if_neg (by omega), hs.insertionSort_eq, if_pos (by omega)]
  have h2 : xs.length / 2 = m := by omega
  rw [h2]

theorem median_odd (xs : List ℚ) (m : ℕ) (hm : xs.length = 2 * m + 1)
    (hs : List.Sorted (· ≤ ·) xs) :
    zap_median xs = xs.getD m 0 := by
  unfold zap_median
  rw [if_neg (by omega), hs.insertionSort_eq, if_neg (by omega)]
  have h2 : xs.length / 2 = m := by omega
  rw [h2]

theorem percentile_zero (xs : List ℚ) (h2 : 2 ≤ xs.length) :
    zap_percentile xs 0 = xs.getD 0 0 := by
  unfold zap_percentile
  rw [if_neg (by omega), if_neg (by omega)]
  dsimp only
  have hrank : ((0 : ℚ) / 100) * ((xs.length : ℚ) - 1) = 0 := by ring
  rw [hrank]
  have hfloor : ⌊(0 : ℚ)⌋ = 0 := Int.floor_zero
  rw [hfloor]
  have hup : ¬(Int.toNat 0 + 1 ≥ xs.length) := by
    simp only [Int.toNat_zero]
    omega
  rw [if_neg hup]
  simp

theorem percentile_hundred (xs : List ℚ) (h2 : 2 ≤ xs.length) :
    zap_percentile xs 100 = xs.getD (xs.length - 1) 0 := by
  unfold zap_percentile
  rw [if_neg (by omega), if_neg (by omega)]
  dsimp only
  have hrank : ((100 : ℚ) / 100) * ((xs.length : ℚ) - 1) =
      ((xs.length - 1 : ℕ) : ℚ) := by
    rw [Nat.cast_sub (by omega : 1 ≤ xs.length)]
    push_cast
    ring
  rw [hrank, Int.floor_natCast, Int.toNat_natCast]
  have hup : xs.length - 1 + 1 ≥ xs.length := by omega
  rw [if_pos hup]
  simp

theorem getD_zero_eq_head (xs : List ℚ) (h : xs ≠ []) :
    xs.getD 0 0 = xs.head h := by
  cases xs with
  | nil => exact absurd rfl h
  | cons a t => rfl

theorem getD_last_eq_getLast (xs : List ℚ) (h : xs ≠ []) :
    xs.getD (xs.length - 1) 0 = xs.getLast h := by
  have hlt : xs.length - 1 < xs.length := by
    have := List.length_pos.mpr h
    omega
  rw [List.getD_eq_getElem xs 0 hlt, List.getLast_eq_getElem]

/-! ### Claim C5 -/

/-- C5: for every nonempty sorted list, `zap_percentile` at `p = 50` agrees
with `zap_median` (middle element for odd length, average of the two middle
elements for even length), at `p = 0` it returns the minimum `xs[0]`, and at
`p = 100` it returns the maximum `xs[n-1]`. -/
theorem c5_percentile_median_min_max (xs : List ℚ) (h : xs ≠ [])
    (hs : List.Sorted (· ≤ ·) xs) :
    zap_percentile xs 50 = zap_median xs ∧
      zap_percentile xs 0 = xs.head h ∧
      zap_percentile xs 100 = xs.getLast h := by
  have hn1 : 1 ≤ xs.length := List.length_pos.mpr h
  by_cases h1 : xs.length = 1
  · cases xs with
    | nil => exact absurd rfl h
    | cons a t =>
      have ht : t = [] := by
        simp only [List.length_cons] at h1
        exact List.eq_nil_of_length_eq_zero (by omega)
      subst ht
      refine ⟨?_, rfl, rfl⟩
      simp [zap_percentile, zap_median]
  · have h2 : 2 ≤ xs.length := by omega
    refine ⟨?_, ?_, ?_⟩
    · rcases Nat.even_or_odd xs.length with ⟨m, hm⟩ | ⟨m, hm⟩
      · have hm1 : 1 ≤ m := by omega
        rw [percentile_even xs m hm hm1, median_even xs m hm hm1 hs]
      · have hm1 : 1 ≤ m := by omega
        rw [percentile_odd xs m hm hm1, median_odd xs m hm hs]
    · rw [percentile_zero xs h2]
      exact getD_zero_eq_head xs h
    · rw [percentile_hundred xs h2]
      exact getD_last_eq_getLast xs h

/-- Witness instantiating `c5_percentile_median_min_max` on `[1, 2, 3, 4]`. -/
theorem c5_percentile_median_min_max_witness :
    zap_percentile [(1 : ℚ), 2, 3, 4] 50 = zap_median [(1 : ℚ), 2, 3, 4] ∧
      zap_percentile [(1 : ℚ), 2, 3, 4] 0 =
        ([(1 : ℚ), 2, 3, 4].head (by simp)) ∧
      zap_percentile [(1 : ℚ), 2, 3, 4] 100 =
        ([(1 : ℚ), 2, 3, 4].getLast (by simp)) :=
  c5_percentile_median_min_max [(1 : ℚ), 2, 3, 4] (by simp)
    (by simp [List.Sorted]; norm_num)

/-! ### Confidence interval (claim C4) -/

/-- The `t_values` table of `zap_confidence_interval` (zap.h, lines
824–831): upper 97.5% Student-t quantiles for `n = 2 … 29`. -/
def t_values : List ℝ :=
  [12.71, 4.30, 3.18, 2.78, 2.57,
   2.45, 2.36, 2.31, 2.26, 2.23,
   2.20, 2.18, 2.16, 2.14, 2.13,
   2.12, 2.11, 2.10, 2.09, 2.09,
   2.08, 2.07, 2.07, 2.06, 2.06,
   2.05, 2.05, 2.05]

/-- `zap_confidence_interval` (zap.h, lines 815–840), returning the pair
`(ci_lower, ci_upper)` written through the out-parameters. -/
noncomputable def zap_confidence_interval (n : ℕ) (mean std_dev : ℝ) :
    ℝ × ℝ :=
  let t : ℝ :=
    if n < 30 then (if 2 ≤ n then t_values.getD (n - 2) 1.96 else 1.96)
    else 1.96
  let margin := t * std_dev / Real.sqrt (n : ℝ)
  (mean - margin, mean + margin)

/-- `zap_std_dev` (zap.h, lines 790–798). -/
noncomputable def zap_std_dev (samples : List ℝ) (mean : ℝ) : ℝ :=
  if samples.length < 2 then 0
  else
    Real.sqrt ((samples.map (fun x => (x - mean) * (x - mean))).sum /
      ((samples.length : ℝ) - 1))

/-- C4 is false as stated: for `n = 1` the code does not special-case
`n < 2` — the table guard only skips the lookup — so with `mean = 0`,
`stddev = 1` the returned interval is `(-1.96, 1.96)`, not `(0, 0)`. -/
theorem c4_n1_interval_not_collapsed_cx :
    zap_confidence_interval 1 0 1 = (-(1.96 : ℝ), 1.96) ∧
      zap_confidence_interval 1 0 1 ≠ ((0 : ℝ), (0 : ℝ)) := by
  have h : zap_confidence_interval 1 0 1 = (-(1.96 : ℝ), 1.96) := by
    unfold zap_confidence_interval
    dsimp only
    rw [if_pos (by norm_num), if_neg (by norm_num)]
    norm_num [Real.sqrt_one]
  refine ⟨h, ?_⟩
  rw [h]
  intro hcontra
  rw [Prod.mk.injEq] at hcontra
  norm_num at hcontra

/-- C4 (amended): the `t` selection is as claimed (`1.96` for `n ≥ 30`, the
tabulated quantile for `2 ≤ n < 30`), with margin `t·stddev/√n`; but for
`n < 2` the interval is *not* unconditionally `(mean, mean)`: at `n = 1` it
is `mean ± 1.96·stddev`, collapsing to `(mean, mean)` only because
`zap_std_dev` returns `0` whenever `n < 2` (and `zap_compute_stats` returns
early for `n = 0`, never calling the interval code). -/
theorem c4_confidence_interval_amended (n : ℕ) (mean sd : ℝ) (xs : List ℝ)
    (m : ℝ) :
    (30 ≤ n → zap_confidence_interval n mean sd =
        (mean - 1.96 * sd / Real.sqrt (n : ℝ),
         mean + 1.96 * sd / Real.sqrt (n : ℝ))) ∧
      (2 ≤ n → n < 30 → zap_confidence_interval n mean sd =
        (mean - t_values.getD (n - 2) 1.96 * sd / Real.sqrt (n : ℝ),
         mean + t_values.getD (n - 2) 1.96 * sd / Real.sqrt (n : ℝ))) ∧
      (zap_confidence_interval 1 mean sd =
        (mean - 1.96 * sd, mean + 1.96 * sd)) ∧
      (xs.length < 2 → zap_std_dev xs m = 0) ∧
      (zap_confidence_interval 1 mean 0 = (mean, mean)) := by
  refine ⟨?_, ?_, ?_, ?_, ?_⟩
  · intro h30
    unfold zap_confidence_interval
    rw [if_neg (by omega)]
  · intro h2 h30
    unfold zap_confidence_interval
    rw [if_pos (by omega), if_pos h2]
  · unfold zap_confidence_interval
    rw [if_pos (by norm_num), if_neg (by norm_num)]
    norm_num [Real.sqrt_one]
  · intro hlen
    unfold zap_std_dev
    rw [if_pos hlen]
  · unfold zap_confidence_interval
    rw [if_pos (by norm_num), if_neg (by norm_num)]
    norm_num [Real.sqrt_one]

/-- Witness instantiating `c4_confidence_interval_amended` at `n = 31`,
`n = 7` and `n = 1` with concrete mean/stddev values. -/
theorem c4_confidence_interval_amended_witness :
    zap_confidence_interval 31 2 1 =
        (2 - 1.96 * 1 / Real.sqrt (31 : ℝ),
         2 + 1.96 * 1 / Real.sqrt (31 : ℝ)) ∧
      zap_confidence_interval 7 2 1 =
        (2 - t_values.getD 5 1.96 * 1 / Real.sqrt (7 : ℝ),
         2 + t_values.getD 5 1.96 * 1 / Real.sqrt (7 : ℝ)) ∧
      zap_std_dev [5] 0 = 0 ∧
      zap_confidence_interval 1 2 0 = (2, 2) :=
  ⟨(c4_confidence_interval_amended 31 2 1 [5] 0).1 (by norm_num),
   (c4_confidence_interval_amended 7 2 1 [5] 0).2.1 (by norm_num) (by norm_num),
   (c4_confidence_interval_amended 1 2 1 [5] 0).2.2.2.1 (by norm_num),
   (c4_confidence_interval_amended 1 2 0 [5] 0).2.2.2.2⟩

/-! ### Comparator (claim C6) -/

inductive zap_change where
  | ZAP_NO_CHANGE
  | ZAP_IMPROVED
  | ZAP_REGRESSED
  deriving Repr, DecidableEq

/-- `zap_baseline_entry_t` (zap.h, lines 186–192); the 256-byte `name`
buffer is modelled as a character list that the store operations truncate
to 255 characters. -/
structure zap_baseline_entry where
  name : List Char
  mean : ℚ
  std_dev : ℚ
  ci_lower : ℚ
  ci_upper : ℚ
  deriving Repr, DecidableEq

/-- The fields of `zap_stats_t` that `zap_compare` and the baseline store
read. -/
structure zap_stats where
  mean : ℚ
  std_dev : ℚ
  ci_lower : ℚ
  ci_upper : ℚ
  deriving Repr, DecidableEq

structure zap_comparison where
  old_mean : ℚ
  new_mean : ℚ
  change_pct : ℚ
  change : zap_change
  significant : Bool
  deriving Repr, DecidableEq

/-- `zap_compare` (zap.h, lines 1966–1998). -/
def zap_compare (baseline : zap_baseline_entry) (current : zap_stats) :
    zap_comparison :=
  let change_pct : ℚ :=
    if baseline.mean > 0 then
      ((current.mean - baseline.mean) / baseline.mean) * 100
    else 0
  let ci_overlap : Bool :=
    !(decide (current.ci_upper < baseline.ci_lower ∨
        current.ci_lower > baseline.ci_upper))
  let significant := !ci_overlap
  let change :=
    if significant = false ∨ |change_pct| < 1 then zap_change.ZAP_NO_CHANGE
    else if change_pct < 0 then zap_change.ZAP_IMPROVED
    else zap_change.ZAP_REGRESSED
  { old_mean := baseline.mean, new_mean := current.mean,
    change_pct := change_pct, change := change, significant := significant }

/-- C6: `zap_compare` computes `change_pct` as the relative change in
percent when `old_mean > 0` and `0` otherwise; `significant` holds exactly
when the confidence intervals are disjoint; and the classification is
`NoChange` when not significant or `|change_pct| < 1`, `Improved` for a
significant decrease and `Regressed` for a significant increase. -/
theorem c6_compare_classification (b : zap_baseline_entry) (cur : zap_stats) :
    ((zap_compare b cur).change_pct =
        if 0 < b.mean then ((cur.mean - b.mean) / b.mean) * 100 else 0) ∧
      ((zap_compare b cur).significant = true ↔
        (cur.ci_upper < b.ci_lower ∨ cur.ci_lower > b.ci_upper)) ∧
      ((zap_compare b cur).significant = false ∨
          |(zap_compare b cur).change_pct| < 1 →
        (zap_compare b cur).change = zap_change.ZAP_NO_CHANGE) ∧
      ((zap_compare b cur).significant = true →
        1 ≤ |(zap_compare b cur).change_pct| →
        (zap_compare b cur).change_pct < 0 →
        (zap_compare b cur).change = zap_change.ZAP_IMPROVED) ∧
      ((zap_compare b cur).significant = true →
        1 ≤ |(zap_compare b cur).change_pct| →
        0 < (zap_compare b cur).change_pct →
        (zap_compare b cur).change = zap_change.ZAP_REGRESSED) := by
  unfold zap_compare
  dsimp only
  simp only [Bool.not_not]
  refine ⟨by trivial, by simp, ?_, ?_, ?_⟩
  · intro hcase
    rw [if_pos hcase]
  · intro hsig hpct hneg
    rw [if_neg (by push_neg; exact ⟨by simp [hsig], hpct⟩), if_pos hneg]
  · intro hsig hpct hposi
    rw [if_neg (by push_neg; exact ⟨by simp [hsig], hpct⟩),
      if_neg (by linarith)]

def c6Baseline : zap_baseline_entry :=
  { name := [], mean := 100, std_dev := 1, ci_lower := 98, ci_upper := 102 }

def c6Current : zap_stats :=
  { mean := 120, std_dev := 1, ci_lower := 118, ci_upper := 122 }

/-- Witness instantiating `c6_compare_classification` on the spec's
regression scenario (baseline mean 100, CI [98, 102]; current mean 120,
CI [118, 122]). -/
theorem c6_compare_classification_witness :
    (zap_compare c6Baseline c6Current).change_pct =
        (if 0 < c6Baseline.mean then
          ((c6Current.mean - c6Baseline.mean) / c6Baseline.mean) * 100
         else 0) ∧
      ((zap_compare c6Baseline c6Current).significant = true ↔
        (c6Current.ci_upper < c6Baseline.ci_lower ∨
          c6Current.ci_lower > c6Baseline.ci_upper)) ∧
      (zap_compare c6Baseline c6Current).change =
        zap_change.ZAP_REGRESSED := by
  have h := c6_compare_classification c6Baseline c6Current
  have hpct : (zap_compare c6Baseline c6Current).change_pct = 20 := by
    rw [h.1]
    norm_num [c6Baseline, c6Current]
  have hsig : (zap_compare c6Baseline c6Current).significant = true :=
    h.2.1.mpr (Or.inr (by norm_num [c6Baseline, c6Current]))
  refine ⟨h.1, h.2.1, ?_⟩
  exact h.2.2.2.2 hsig (by rw [hpct]; norm_num) (by rw [hpct]; norm_num)

/-! ### Baseline store (claims C7 and C9) -/

/-- `zap_baseline_add` (zap.h, lines 1831–1859) on the entry sequence: the
first entry whose stored name compares equal (`strcmp`) has its numeric
fields updated in place; otherwise a new entry is appended, its name
truncated by `strncpy` to the 255 characters the 256-byte buffer holds.
The capacity-doubling `realloc` has no observable effect on the sequence. -/
def zap_baseline_add (b : List zap_baseline_entry) (name : List Char)
    (stats : zap_stats) : List zap_baseline_entry :=
  match b with
  | [] =>
    [{ name := name.take 255, mean := stats.mean, std_dev := stats.std_dev,
       ci_lower := stats.ci_lower, ci_upper := stats.ci_upper }]
  | e :: rest =>
    if e.name = name then
      { e with mean := stats.mean, std_dev := stats.std_dev,
               ci_lower := stats.ci_lower, ci_upper := stats.ci_upper } :: rest
    else e :: zap_baseline_add rest name stats

/-- `zap_baseline_find` (zap.h, lines 1861–1869), reduced to the found
entry. -/
def zap_baseline_find (b : List zap_baseline_entry) (name : List Char) :
    Option zap_baseline_entry :=
  b.find? (fun e => e.name = name)

def digitsToNat (ds : List Char) : ℕ :=
  ds.foldl (fun acc d => acc * 10 + (d.toNat - 48)) 0

/-- One `%lf` conversion of `sscanf`: skip leading whitespace, optional
sign, decimal digits with optional fraction and exponent; fails when no
mantissa digit is present.  (The C library's hex-float and inf/nan spellings
do not occur in baseline files and are not modelled.) -/
def parseDouble (s : List Char) : Option (ℚ × List Char) :=
  let s0 := s.dropWhile (fun ch => ch.isWhitespace)
  let sgn : ℚ × List Char :=
    match s0 with
    | '-' :: rest => (-1, rest)
    | '+' :: rest => (1, rest)
    | _ => (1, s0)
  let s1 := sgn.2
  let intDigits := s1.takeWhile (fun ch => ch.isDigit)
  let s2 := s1.dropWhile (fun ch => ch.isDigit)
  let fracPart : List Char × List Char :=
    match s2 with
    | '.' :: rest =>
      (rest.takeWhile (fun ch => ch.isDigit), rest.dropWhile (fun ch => ch.isDigit))
    | _ => ([], s2)
  let fracDigits := fracPart.1
  let s3 := fracPart.2
  if intDigits.length = 0 ∧ fracDigits.length = 0 then none
  else
    let mantissa : ℚ :=
      sgn.1 * ((digitsToNat intDigits : ℚ) +
        (digitsToNat fracDigits : ℚ) / (10 : ℚ) ^ fracDigits.length)
    match s3 with
    | c :: rest =>
      if c = 'e' ∨ c = 'E' then
        let esgn : ℤ × List Char :=
          match rest with
          | '-' :: r => (-1, r)
          | '+' :: r => (1, r)
          | _ => (1, rest)
        let eDigits := esgn.2.takeWhile (fun ch => ch.isDigit)
        if eDigits.length = 0 then some (mantissa, s3)
        else
          some (mantissa * (10 : ℚ) ^ (esgn.1 * (digitsToNat eDigits : ℤ)),
            esgn.2.dropWhile (fun ch => ch.isDigit))
      else some (mantissa, s3)
    | [] => some (mantissa, [])

def expectBar : List Char → Option (List Char)
  | '|' :: rest => some rest
  | _ => none

/-- The `sscanf(p, "%lf|%lf|%lf|%lf", ...)` call of `zap_baseline_load`:
succeeds (returns 4) exactly when all four conversions and the three
literal separators match. -/
def parseEntryNums (s : List Char) : Option (ℚ × ℚ × ℚ × ℚ) := do
  let (a, r1) ← parseDouble s
  let r1b ← expectBar r1
  let (b, r2) ← parseDouble r1b
  let r2b ← expectBar r2
  let (c, r3) ← parseDouble r2b
  let r3b ← expectBar r3
  let (d, _) ← parseDouble r3b
  pure (a, b, c, d)

/-- One entry line of `zap_baseline_load` (zap.h, lines 1925–1951): the
name is everything before the first `|` (truncated to 255 characters), the
rest must yield four numbers; otherwise the line is skipped. -/
def zap__parse_baseline_line (line : List Char) :
    Option zap_baseline_entry :=
  let name := line.takeWhile (fun ch => ¬(ch = '|'))
  if name.length = line.length then none
  else
    match parseEntryNums (line.drop (name.length + 1)) with
    | none => none
    | some (m, sd, cl, cu) =>
      some { name := name.take 255, mean := m, std_dev := sd,
             ci_lower := cl, ci_upper := cu }

inductive zap_load_result where
  | missing
  | empty_file
  | bad_header
  | ok (entries : List zap_baseline_entry)
  deriving Repr, DecidableEq

/-- `zap_baseline_load` (zap.h, lines 1905–1960).  The file is a list of
lines (or `none` when `fopen` fails); parsed entries are appended to the
store `b` without any duplicate check.  `missing` and `empty_file` are the
two silent `false` returns; `bad_header` is the `false` return with the
"Invalid baseline file format" message, raised when the first 15 characters
of the first line (`strncmp(line, "zap-baseline v1", 15)`) differ from the
header. -/
def zap_baseline_load (file : Option (List (List Char)))
    (b : List zap_baseline_entry) : zap_load_result :=
  match file with
  | none => .missing
  | some [] => .empty_file
  | some (first :: rest) =>
    if first.take 15 ≠ ("zap-baseline v1").toList then .bad_header
    else
      .ok (rest.foldl (fun acc line =>
        match zap__parse_baseline_line line with
        | none => acc
        | some e => acc ++ [e]) b)

/-! ### Claim C7 -/

theorem mem_keys_add (b : List zap_baseline_entry) (name : List Char)
    (s : zap_stats) (x : List Char)
    (hx : x ∈ (zap_baseline_add b name s).map (fun e => e.name)) :
    x ∈ b.map (fun e => e.name) ∨ x = name.take 255 := by
  induction b with
  | nil =>
    simp only [zap_baseline_add, List.map_cons, List.map_nil,
      List.mem_singleton] at hx
    exact Or.inr hx
  | cons e rest ih =>
    simp only [zap_baseline_add] at hx
    split at hx
    · simp only [List.map_cons, List.mem_cons] at hx
      rcases hx with hx | hx
      · exact Or.inl (by simp [hx])
      · exact Or.inl (by simp [hx])
    · simp only [List.map_cons, List.mem_cons] at hx
      rcases hx with hx | hx
      · exact Or.inl (by simp [hx])
      · rcases ih hx with h | h
        · exact Or.inl (by simp [h])
        · exact Or.inr h

theorem keys_add_nodup (b : List zap_baseline_entry) (name : List Char)
    (s : zap_stats) (hlen : name.length ≤ 255)
    (hnd : (b.map (fun e => e.name)).Nodup) :
    ((zap_baseline_add b name s).map (fun e => e.name)).Nodup := by
  have htake : name.take 255 = name := List.take_of_length_le hlen
  induction b with
  | nil => simp [zap_baseline_add]
  | cons e rest ih =>
    simp only [List.map_cons, List.nodup_cons] at hnd
    simp only [zap_baseline_add]
    split
    · simp only [List.map_cons, List.nodup_cons]
      exact ⟨hnd.1, hnd.2⟩
    · rename_i hne
      simp only [List.map_cons, List.nodup_cons]
      refine ⟨?_, ih hnd.2⟩
      intro hmem
      rcases mem_keys_add rest name s e.name hmem with h | h
      · exact hnd.1 h
      · rw [htake] at h
        exact hne h

theorem add_of_not_mem (b : List zap_baseline_entry) (name : List Char)
    (s : zap_stats) (hnm : ¬ name ∈ b.map (fun e => e.name)) :
    zap_baseline_add b name s =
      b ++ [{ name := name.take 255, mean := s.mean, std_dev := s.std_dev,
              ci_lower := s.ci_lower, ci_upper := s.ci_upper }] := by
  induction b with
  | nil => rfl
  | cons e rest ih =>
    simp only [List.map_cons, List.mem_cons] at hnm
    push_neg at hnm
    simp only [zap_baseline_add]
    rw [if_neg (fun h => hnm.1 h.symm)]
    rw [ih hnm.2]
    simp

theorem add_of_mem (b : List zap_baseline_entry) (name : List Char)
    (s : zap_stats) (hnd : (b.map (fun e => e.name)).Nodup)
    (hm : name ∈ b.map (fun e => e.name)) :
    zap_baseline_add b name s =
      b.map (fun e => if e.name = name then
        { name := e.name, mean := s.mean, std_dev := s.std_dev,
          ci_lower := s.ci_lower, ci_upper := s.ci_upper } else e) := by
  induction b with
  | nil => simp at hm
  | cons e rest ih =>
    simp only [List.map_cons, List.nodup_cons] at hnd
    simp only [List.map_cons, List.mem_cons] at hm
    simp only [zap_baseline_add, List.map_cons]
    by_cases he : e.name = name
    · rw [if_pos he, if_pos he]
      congr 1
      have hnm : ¬ name ∈ rest.map (fun x => x.name) := he ▸ hnd.1
      have hcongr : ∀ a ∈ rest,
          (if a.name = name then
            { name := a.name, mean := s.mean, std_dev := s.std_dev,
              ci_lower := s.ci_lower, ci_upper := s.ci_upper } else a) =
            id a :=
        fun a ha => if_neg
          (fun (hcontra : a.name = name) =>
            hnm (hcontra ▸ List.mem_map_of_mem (fun x => x.name) ha))
      exact ((List.map_congr_left hcongr).trans (List.map_id rest)).symm
    · rw [if_neg he, if_neg he]
      rcases hm with hm | hm
      · exact absurd hm.symm he
      · rw [ih hnd.2 hm]

theorem add_add_collapse (b : List zap_baseline_entry) (name : List Char)
    (s₁ s₂ : zap_stats) (hlen : name.length ≤ 255) :
    zap_baseline_add (zap_baseline_add b name s₁) name s₂ =
      zap_baseline_add b name s₂ := by
  have htake : name.take 255 = name := List.take_of_length_le hlen
  induction b with
  | nil => simp [zap_baseline_add, htake]
  | cons e rest ih =>
    simp only [zap_baseline_add]
    by_cases he : e.name = name
    · rw [if_pos he]
      simp only [zap_baseline_add]
      rw [if_pos he, if_pos he]
    · rw [if_neg he]
      simp only [zap_baseline_add]
      rw [if_neg he, if_neg he, ih]

def c7File : List (List Char) :=
  [("zap-baseline v1").toList, ("a|1|2|3|4").toList, ("a|5|6|7|8").toList]

/-- C7 is false as stated for `zap_baseline_load`: loading a well-formed
file whose entry lines repeat a name appends both entries without any
duplicate check, so the resulting store has duplicate keys. -/
theorem c7_load_duplicate_keys_cx :
    (match zap_baseline_load (some c7File) [] with
      | zap_load_result.ok l => l.map (fun e => e.name)
      | _ => []) = [("a").toList, ("a").toList] ∧
      ¬ ([("a").toList, ("a").toList] : List (List Char)).Nodup := by
  constructor
  · decide
  · decide

/-- C7 (amended): `zap_baseline_add` is the claimed upsert — for a name
that fits the 256-byte entry buffer it preserves key uniqueness, appends
when the key is absent, updates the matching entry in place (position and
name unchanged) when present, and a second `add` of the same name
overwrites the first — but `zap_baseline_load` appends parsed entries
without any duplicate check, so a loaded store keeps keys unique only when
the file's names are themselves distinct. -/
theorem c7_baseline_add_upsert (b : List zap_baseline_entry)
    (name : List Char) (s s₁ s₂ : zap_stats) (hlen : name.length ≤ 255) :
    ((b.map (fun e => e.name)).Nodup →
        ((zap_baseline_add b name s).map (fun e => e.name)).Nodup) ∧
      (¬ name ∈ b.map (fun e => e.name) →
        zap_baseline_add b name s =
          b ++ [{ name := name, mean := s.mean, std_dev := s.std_dev,
                  ci_lower := s.ci_lower, ci_upper := s.ci_upper }]) ∧
      ((b.map (fun e => e.name)).Nodup → name ∈ b.map (fun e => e.name) →
        zap_baseline_add b name s =
          b.map (fun e => if e.name = name then
            { name := e.name, mean := s.mean, std_dev := s.std_dev,
              ci_lower := s.ci_lower, ci_upper := s.ci_upper } else e)) ∧
      zap_baseline_add (zap_baseline_add b name s₁) name s₂ =
        zap_baseline_add b name s₂ := by
  have htake : name.take 255 = name := List.take_of_length_le hlen
  refine ⟨fun hnd => keys_add_nodup b name s hlen hnd, ?_,
    fun hnd hm => add_of_mem b name s hnd hm,
    add_add_collapse b name s₁ s₂ hlen⟩
  intro hnm
  rw [add_of_not_mem b name s hnm, htake]

def c7Store : List zap_baseline_entry :=
  [{ name := ("b").toList, mean := 1, std_dev := 1, ci_lower := 1,
     ci_upper := 1 }]

def c7Name : List Char := ("a").toList

def c7s2 : zap_stats := { mean := 2, std_dev := 2, ci_lower := 2, ci_upper := 2 }

def c7s3 : zap_stats := { mean := 3, std_dev := 3, ci_lower := 3, ci_upper := 3 }

/-- Witness instantiating `c7_baseline_add_upsert` on a concrete
single-entry store. -/
theorem c7_baseline_add_upsert_witness :
    ((c7Store.map (fun e => e.name)).Nodup →
        ((zap_baseline_add c7Store c7Name c7s2).map (fun e => e.name)).Nodup) ∧
      (¬ c7Name ∈ c7Store.map (fun e => e.name) →
        zap_baseline_add c7Store c7Name c7s2 =
          c7Store ++ [{ name := c7Name, mean := c7s2.mean,
                        std_dev := c7s2.std_dev, ci_lower := c7s2.ci_lower,
                        ci_upper := c7s2.ci_upper }]) ∧
      ((c7Store.map (fun e => e.name)).Nodup →
        c7Name ∈ c7Store.map (fun e => e.name) →
        zap_baseline_add c7Store c7Name c7s2 =
          c7Store.map (fun e => if e.name = c7Name then
            { name := e.name, mean := c7s2.mean, std_dev := c7s2.std_dev,
              ci_lower := c7s2.ci_lower, ci_upper := c7s2.ci_upper } else e)) ∧
      zap_baseline_add (zap_baseline_add c7Store c7Name c7s2) c7Name c7s3 =
        zap_baseline_add c7Store c7Name c7s3 :=
  c7_baseline_add_upsert c7Store c7Name c7s2 c7s2 c7s3 (by decide)

/-! ### Claim C9 -/

def c9File : List (List Char) := [("zap-baseline v1 BETA").toList]

/-- C9 is false as stated: the header check is `strncmp(..., 15)`, a prefix
comparison, so a first line that merely *starts with* `zap-baseline v1`
(here `zap-baseline v1 BETA`, which is not the literal string) is accepted
and the load succeeds with no parse error. -/
theorem c9_header_prefix_cx :
    ("zap-baseline v1 BETA").toList ≠ ("zap-baseline v1").toList ∧
      zap_baseline_load (some c9File) [] = zap_load_result.ok [] := by
  constructor
  · decide
  · decide

/-- C9 (amended): a missing file loads as not-found without an error; a
nonempty file is rejected with a parse error exactly when the first 15
characters of its first line differ from `zap-baseline v1` (a prefix
check, not a full-line comparison); and an entry line that fails to parse
(no `|` separator, or fewer than four numeric fields) is silently skipped
while the remaining lines are still loaded. -/
theorem c9_load_behaviour (b : List zap_baseline_entry)
    (first bad : List Char) (rest pre post : List (List Char)) :
    zap_baseline_load none b = zap_load_result.missing ∧
      (zap_baseline_load (some (first :: rest)) b = zap_load_result.bad_header
        ↔ first.take 15 ≠ ("zap-baseline v1").toList) ∧
      (zap__parse_baseline_line bad = none →
        zap_baseline_load (some (first :: (pre ++ bad :: post))) b =
          zap_baseline_load (some (first :: (pre ++ post))) b) := by
  refine ⟨rfl, ?_, ?_⟩
  · simp only [zap_baseline_load]
    by_cases hh : first.take 15 ≠ ("zap-baseline v1").toList
    · rw [if_pos hh]
      exact ⟨fun _ => hh, fun _ => rfl⟩
    · rw [if_neg hh]
      constructor
      · intro hcontra
        exact absurd hcontra (by simp)
      · intro h
        exact absurd h hh
  · intro hbad
    simp only [zap_baseline_load]
    by_cases hh : first.take 15 ≠ ("zap-baseline v1").toList
    · rw [if_pos hh, if_pos hh]
    · rw [if_neg hh, if_neg hh]
      congr 1
      rw [List.foldl_append, List.foldl_append, List.foldl_cons]
      simp only [hbad]

def c9GoodFile : List (List Char) :=
  [("zap-baseline v1").toList, ("noseparator").toList, ("x|1|2|3").toList,
   ("y|1|2|3|4").toList]

/-- Witness instantiating `c9_load_behaviour`: a file with one separator-less
line and one line with only three numbers loads the same entries as the
file without them. -/
theorem c9_load_behaviour_witness :
    zap_baseline_load none ([] : List zap_baseline_entry) =
        zap_load_result.missing ∧
      (zap_baseline_load (some c9GoodFile) [] = zap_load_result.bad_header ↔
        (("zap-baseline v1").toList).take 15 ≠ ("zap-baseline v1").toList) ∧
      zap_baseline_load
          (some (("zap-baseline v1").toList ::
            ([] ++ ("noseparator").toList :: [("y|1|2|3|4").toList]))) [] =
        zap_baseline_load
          (some (("zap-baseline v1").toList :: ([] ++ [("y|1|2|3|4").toList])))
          [] := by
  have h := c9_load_behaviour [] (("zap-baseline v1").toList)
    (("noseparator").toList)
    [("noseparator").toList, ("x|1|2|3").toList, ("y|1|2|3|4").toList]
    [] [("y|1|2|3|4").toList]
  exact ⟨h.1, h.2.1, h.2.2 (by decide)⟩

/-! ### Name filter (claim C8) -/

/-- Declarative glob semantics: `*` matches any (possibly empty) run of
characters, `?` matches exactly one character, every other character
matches itself; the whole name must be consumed. -/
def globSpec : List Char → List Char → Bool
  | [], s => s.isEmpty
  | ch :: p, s =>
    if ch = '*' then s.tails.any (fun t => globSpec p t)
    else
      match s with
      | [] => false
      | c :: s2 => (decide (ch = '?') || decide (ch = c)) && globSpec p s2

/-- Star-free charwise matching (`?` or equal), both lists consumed. -/
def charMatch : List Char → List Char → Bool
  | [], [] => true
  | a :: v, c :: u => (decide (a = '?') || decide (a = c)) && charMatch v u
  | _, _ => false

/-- The loop of `zap__glob_match` (zap.h, lines 2155–2178).  `p`/`s` are the
cursors, `star` holds `(star_p + 1, star_s)` when a `*` has been seen
(`star_p` points at the star, so the pattern resumes right after it).  The
hypothesis records that the string cursor never runs ahead of the stored
backtracking point; it makes the `s = ++star_s` step total and the loop's
termination measure well-founded, and holds trivially at every call site. -/
def globLoop : (p s : List Char) → (star : Option (List Char × List Char)) →
    (∀ sp ss, star = some (sp, ss) → s.length ≤ ss.length) → Bool
  | p, [], _, _ =>
    -- while (*p == '*') p++;  return *p == '\0';
    (p.dropWhile (fun ch => ch = '*')).isEmpty
  | '*' :: p2, c :: s2, _, _ =>
    -- star_p = p++; star_s = s;
    globLoop p2 (c :: s2) (some (p2, c :: s2)) (fun sp ss hss => by
      simp only [Option.some.injEq, Prod.mk.injEq] at hss
      rw [← hss.2])
  | ch :: p2, c :: s2, star, h =>
    if ch = '?' ∨ ch = c then
      -- p++; s++;
      globLoop p2 s2 star
        (fun sp ss hss => le_trans (Nat.le_succ _) (h sp ss hss))
    else
      -- p = star_p + 1; s = ++star_s;   (or fail when no star was seen)
      match star, h with
      | none, _ => false
      | some (sp, ss), h =>
        match ss, h sp ss rfl with
        | [], hle => absurd hle (by simp)
        | _ :: ss2, _ =>
          globLoop sp ss2 (some (sp, ss2)) (fun sp2 ssx hss => by
            simp only [Option.some.injEq, Prod.mk.injEq] at hss
            rw [← hss.2])
  | [], c :: s2, star, h =>
    -- *p == '\0' matches neither '?' nor *s: backtrack or fail
    match star, h with
    | none, _ => false
    | some (sp, ss), h =>
      match ss, h sp ss rfl with
      | [], hle => absurd hle (by simp)
      | _ :: ss2, _ =>
        globLoop sp ss2 (some (sp, ss2)) (fun sp2 ssx hss => by
          simp only [Option.some.injEq, Prod.mk.injEq] at hss
          rw [← hss.2])
  termination_by p s star _ =>
    ((match star with
      | none => s.length + 1
      | some (_, ss) => ss.length), s.length, p.length)
  decreasing_by
    · rename_i star h
      simp_wf
      rcases star with - | ⟨sp0, ss0⟩
      · simp only []
        exact Prod.Lex.left _ _ (by omega)
      · simp only []
        have hle := h sp0 ss0 rfl
        simp only [List.length_cons] at hle
        rcases lt_or_eq_of_le hle with hlt | heq
        · exact Prod.Lex.left _ _ hlt
        · rw [← heq]
          exact Prod.Lex.right _ (Prod.Lex.right _ (by omega))
    · simp_wf
      rcases star with - | ⟨sp0, ss0⟩
      · simp only []
        exact Prod.Lex.left _ _ (by omega)
      · simp only []
        exact Prod.Lex.right _ (Prod.Lex.left _ _ (by omega))
    · simp_wf
      exact Prod.Lex.left _ _ (by omega)
    · simp_wf
      exact Prod.Lex.left _ _ (by omega)

/-- `zap__glob_match` (zap.h, lines 2155–2178). -/
def zap__glob_match (pattern str : List Char) : Bool :=
  globLoop pattern str none (fun sp ss hss => Option.noConfusion hss)

/-- The `strstr(name, pattern) != NULL` test. -/
def strstrB (hay needle : List Char) : Bool :=
  hay.tails.any (fun t => needle.isPrefixOf t)

theorem dropWhile_star_isEmpty (p : List Char) :
    (p.dropWhile (fun ch => ch = '*')).isEmpty = p.all (fun ch => ch = '*') := by
  induction p with
  | nil => rfl
  | cons ch p ih =>
    by_cases hch : ch = '*'
    · simp [List.dropWhile_cons, List.all_cons, hch, ih]
    · simp [List.dropWhile_cons, List.all_cons, hch]

theorem globSpec_nil (p : List Char) :
    globSpec p [] = p.all (fun ch => ch = '*') := by
  induction p with
  | nil => rfl
  | cons ch p ih =>
    by_cases hch : ch = '*'
    · simp only [globSpec, if_pos hch, List.all_cons, hch]
      simp [ih]
    · simp only [globSpec, if_neg hch, List.all_cons]
      simp [hch]

theorem globSpec_star_iff (p s : List Char) :
    globSpec ('*' :: p) s = true ↔
      ∃ w t, s = w ++ t ∧ globSpec p t = true := by
  have hunf : globSpec ('*' :: p) s = s.tails.any (fun t => globSpec p t) := by
    simp [globSpec]
  rw [hunf, List.any_eq_true]
  constructor
  · rintro ⟨t, hmem, ht⟩
    obtain ⟨w, hw⟩ := (List.mem_tails t s).mp hmem
    exact ⟨w, t, hw.symm, ht⟩
  · rintro ⟨w, t, hw, ht⟩
    exact ⟨t, (List.mem_tails t s).mpr ⟨w, hw.symm⟩, ht⟩

theorem charMatch_nil_left (u : List Char) :
    charMatch [] u = true ↔ u = [] := by
  cases u with
  | nil => simp [charMatch]
  | cons c u => simp [charMatch]

theorem charMatch_length (v u : List Char) (h : charMatch v u = true) :
    v.length = u.length := by
  induction v generalizing u with
  | nil =>
    rw [charMatch_nil_left] at h
    rw [h]
  | cons a v ih =>
    cases u with
    | nil => simp [charMatch] at h
    | cons c u =>
      simp only [charMatch, Bool.and_eq_true] at h
      simp [ih u h.2]

theorem charMatch_snoc (v u : List Char) (a c : Char)
    (h : charMatch v u = true) (hac : a = '?' ∨ a = c) :
    charMatch (v ++ [a]) (u ++ [c]) = true := by
  induction v generalizing u with
  | nil =>
    rw [charMatch_nil_left] at h
    subst h
    simp [charMatch, hac]
  | cons a2 v ih =>
    cases u with
    | nil => simp [charMatch] at h
    | cons c2 u =>
      simp only [charMatch, Bool.and_eq_true] at h
      simp only [List.cons_append, charMatch, Bool.and_eq_true]
      exact ⟨h.1, ih u h.2⟩

theorem noStar_decomp (v : List Char) (hv : ('*' : Char) ∉ v) :
    ∀ (q s : List Char), globSpec (v ++ q) s = true ↔
      ∃ u t, s = u ++ t ∧ charMatch v u = true ∧ globSpec q t = true := by
  induction v with
  | nil =>
    intro q s
    constructor
    · intro h
      exact ⟨[], s, rfl, rfl, h⟩
    · rintro ⟨u, t, hs, hcm, hq⟩
      rw [charMatch_nil_left] at hcm
      subst hcm
      simpa [hs] using hq
  | cons a v ih =>
    intro q s
    have ha : a ≠ '*' := fun hcontra => hv (by simp [hcontra])
    have hv' : ('*' : Char) ∉ v := fun hcontra => hv (by simp [hcontra])
    cases s with
    | nil =>
      simp only [List.cons_append, globSpec, if_neg ha]
      constructor
      · intro h
        exact absurd h (by simp)
      · rintro ⟨u, t, hs, hcm, hq⟩
        rcases List.append_eq_nil.mp hs.symm with ⟨hu, ht⟩
        subst hu
        simp [charMatch] at hcm
    | cons c s2 =>
      simp only [List.cons_append, globSpec, if_neg ha, Bool.and_eq_true]
      constructor
      · rintro ⟨hac, h⟩
        obtain ⟨u2, t2, hs2, hcm2, hq2⟩ := (ih hv' q s2).mp h
        refine ⟨c :: u2, t2, by simp [hs2], ?_, hq2⟩
        simp only [charMatch, Bool.and_eq_true]
        exact ⟨hac, hcm2⟩
      · rintro ⟨u, t, hs, hcm, hq⟩
        cases u with
        | nil => simp [charMatch] at hcm
        | cons c2 u2 =>
          simp only [charMatch, Bool.and_eq_true] at hcm
          simp only [List.cons_append, List.cons.injEq] at hs
          refine ⟨hs.1 ▸ hcm.1, (ih hv' q s2).mpr ⟨u2, t, hs.2, hcm.2, hq⟩⟩

theorem suffix_shorten (u s w t : List Char) (h : u ++ s = w ++ t)
    (hlen : t.length ≤ s.length) : ∃ w2, s = w2 ++ t := by
  have hwlen : u.length ≤ w.length := by
    have := congrArg List.length h
    simp only [List.length_append] at this
    omega
  refine ⟨w.drop u.length, ?_⟩
  have h2 : (u ++ s).drop u.length = (w ++ t).drop u.length := by rw [h]
  rw [List.drop_left] at h2
  rw [h2, List.drop_append_of_le_length hwlen]

theorem star_dominance (v u q s : List Char) (hv : ('*' : Char) ∉ v)
    (hcm : charMatch v u = true) :
    (globSpec ('*' :: (v ++ '*' :: q)) (u ++ s) = true ↔
      globSpec ('*' :: q) s = true) := by
  constructor
  · intro h
    obtain ⟨w, t, hw, ht⟩ := (globSpec_star_iff _ _).mp h
    obtain ⟨u2, t2, ht2, hcm2, hq⟩ := (noStar_decomp v hv _ _).mp ht
    have hlen1 : v.length = u.length := charMatch_length v u hcm
    have hlen2 : v.length = u2.length := charMatch_length v u2 hcm2
    have hts : t2.length ≤ s.length := by
      have := congrArg List.length hw
      have h2 := congrArg List.length ht2
      simp only [List.length_append] at this h2
      omega
    have hsplit : u ++ s = (w ++ u2) ++ t2 := by
      rw [hw, ht2, List.append_assoc]
    obtain ⟨w2, hw2⟩ := suffix_shorten u s (w ++ u2) t2 hsplit hts
    obtain ⟨w3, t3, hw3, ht3⟩ := (globSpec_star_iff _ _).mp hq
    refine (globSpec_star_iff _ _).mpr ⟨w2 ++ w3, t3, ?_, ht3⟩
    rw [hw2, hw3, List.append_assoc]
  · intro h
    refine (globSpec_star_iff _ _).mpr ⟨[], u ++ s, rfl, ?_⟩
    exact (noStar_decomp v hv _ _).mpr ⟨u, s, rfl, hcm, h⟩

theorem star_all_star (v u p : List Char) (hv : ('*' : Char) ∉ v)
    (hcm : charMatch v u = true) :
    (globSpec ('*' :: (v ++ p)) u = true ↔
      p.all (fun ch => ch = '*') = true) := by
  constructor
  · intro h
    obtain ⟨w, t, hw, ht⟩ := (globSpec_star_iff _ _).mp h
    obtain ⟨u2, t2, ht2, hcm2, hp⟩ := (noStar_decomp v hv _ _).mp ht
    have hlen1 : v.length = u.length := charMatch_length v u hcm
    have hlen2 : v.length = u2.length := charMatch_length v u2 hcm2
    have ht2nil : t2 = [] := by
      have h1 := congrArg List.length hw
      have h2 := congrArg List.length ht2
      simp only [List.length_append] at h1 h2
      have : t2.length = 0 := by omega
      exact List.eq_nil_of_length_eq_zero this
    subst ht2nil
    rw [← globSpec_nil]
    exact hp
  · intro h
    refine (globSpec_star_iff _ _).mpr ⟨[], u, rfl, ?_⟩
    refine (noStar_decomp v hv _ _).mpr ⟨u, [], by simp, hcm, ?_⟩
    rw [globSpec_nil]
    exact h

theorem bool_eq_of_iff {a b : Bool} (h : a = true ↔ b = true) : a = b := by
  cases a <;> cases b <;> simp_all

theorem globSpec_cons_match (ch : Char) (p2 : List Char) (c : Char)
    (s2 : List Char) (hch : ch ≠ '*') (hm : ch = '?' ∨ ch = c) :
    globSpec (ch :: p2) (c :: s2) = globSpec p2 s2 := by
  simp only [globSpec, if_neg hch]
  rcases hm with hm | hm <;> simp [hm]

theorem globSpec_cons_nomatch (ch : Char) (p2 : List Char) (c : Char)
    (s2 : List Char) (hch : ch ≠ '*') (hm : ¬(ch = '?' ∨ ch = c)) :
    globSpec (ch :: p2) (c :: s2) = false := by
  push_neg at hm
  simp only [globSpec, if_neg hch]
  simp [hm.1, hm.2]

theorem star_cons_eq (p : List Char) (c : Char) (s : List Char)
    (hfail : globSpec p (c :: s) = false) :
    globSpec ('*' :: p) (c :: s) = globSpec ('*' :: p) s := by
  apply bool_eq_of_iff
  rw [globSpec_star_iff, globSpec_star_iff]
  constructor
  · rintro ⟨w, t, hw, ht⟩
    cases w with
    | nil =>
      simp only [List.nil_append] at hw
      rw [← hw] at ht
      rw [ht] at hfail
      cases hfail
    | cons c2 w2 =>
      simp only [List.cons_append, List.cons.injEq] at hw
      exact ⟨w2, t, hw.2, ht⟩
  · rintro ⟨w, t, hw, ht⟩
    exact ⟨c :: w, t, by simp [hw], ht⟩

theorem direct_fail (v u p s : List Char) (c2 : Char) (ss2 : List Char)
    (hv : ('*' : Char) ∉ v) (hcm : charMatch v u = true)
    (hss : c2 :: ss2 = u ++ s) (hpfail : globSpec p s = false) :
    globSpec (v ++ p) (c2 :: ss2) = false := by
  cases hb : globSpec (v ++ p) (c2 :: ss2) with
  | false => rfl
  | true =>
    exfalso
    obtain ⟨u1, t, hsplit, hcm1, hrest⟩ := (noStar_decomp v hv p _).mp hb
    have hl1 := charMatch_length v u hcm
    have hl2 := charMatch_length v u1 hcm1
    have heq : u1 ++ t = u ++ s := by rw [← hsplit, hss]
    obtain ⟨hu, ht⟩ := List.append_inj heq (by omega)
    rw [ht] at hrest
    rw [hrest] at hpfail
    cases hpfail

theorem globLoop_eq (p s : List Char) (star : Option (List Char × List Char))
    (h : ∀ sp ss, star = some (sp, ss) → s.length ≤ ss.length)
    (hinv : ∀ sp ss, star = some (sp, ss) →
      ∃ v u, sp = v ++ p ∧ ss = u ++ s ∧ charMatch v u = true ∧
        ('*' : Char) ∉ v) :
    globLoop p s star h =
      (match star with
       | none => globSpec p s
       | some (sp, ss) => globSpec ('*' :: sp) ss) := by
  induction p, s, star, h using globLoop.induct with
  | case1 star p x h2 =>
    rcases star with - | ⟨sp, ss⟩
    · show globLoop p [] none x = globSpec p []
      rw [globLoop.eq_1, dropWhile_star_isEmpty, globSpec_nil]
    · obtain ⟨v, u, hsp, hss, hcm, hv⟩ := hinv sp ss rfl
      show globLoop p [] (some (sp, ss)) x = globSpec ('*' :: sp) ss
      rw [globLoop.eq_1, dropWhile_star_isEmpty]
      apply bool_eq_of_iff
      rw [hsp, hss]
      simp only [List.append_nil]
      exact (star_all_star v u p hv hcm).symm
  | case2 star p2 c s2 x h2 ih =>
    have hIH := ih (fun sp ss hss => by
      simp only [Option.some.injEq, Prod.mk.injEq] at hss
      exact ⟨[], [], by simp [hss.1], by simp [hss.2], rfl, by simp⟩)
    rcases star with - | ⟨sp0, ss0⟩
    · show globLoop ('*' :: p2) (c :: s2) none x = globSpec ('*' :: p2) (c :: s2)
      rw [globLoop.eq_2]
      exact hIH
    · obtain ⟨v, u, hsp, hss, hcm, hv⟩ := hinv sp0 ss0 rfl
      show globLoop ('*' :: p2) (c :: s2) (some (sp0, ss0)) x =
        globSpec ('*' :: sp0) ss0
      rw [globLoop.eq_2]
      refine hIH.trans ?_
      show globSpec ('*' :: p2) (c :: s2) = globSpec ('*' :: sp0) ss0
      apply bool_eq_of_iff
      rw [hsp, hss]
      exact (star_dominance v u p2 (c :: s2) hv hcm).symm
  | case3 ch p2 c s2 star h2 hstar hm h3 ih =>
    have hch : ch ≠ '*' := fun hc => hstar hc
    have hIH := ih (fun sp ss hss => by
      obtain ⟨v, u, hsp, hss2, hcm, hv⟩ := hinv sp ss hss
      refine ⟨v ++ [ch], u ++ [c], by rw [hsp]; simp, by rw [hss2]; simp,
        charMatch_snoc v u ch c hcm hm, ?_⟩
      simp only [List.mem_append, List.mem_singleton]
      rintro (hx | hx)
      · exact hv hx
      · exact hch hx.symm)
    rcases star with - | ⟨sp0, ss0⟩
    · show globLoop (ch :: p2) (c :: s2) none h2 = globSpec (ch :: p2) (c :: s2)
      rw [globLoop.eq_3 ch p2 c s2 _ hstar, if_pos hm,
        globSpec_cons_match ch p2 c s2 hch hm]
      exact hIH
    · rcases ss0 with - | ⟨c2, ss2⟩
      · show globLoop (ch :: p2) (c :: s2) (some (sp0, [])) h2 =
          globSpec ('*' :: sp0) []
        rw [globLoop.eq_4 ch p2 c s2 sp0 _ hstar, if_pos hm]
        exact hIH
      · show globLoop (ch :: p2) (c :: s2) (some (sp0, c2 :: ss2)) h2 =
          globSpec ('*' :: sp0) (c2 :: ss2)
        rw [globLoop.eq_5 ch p2 c s2 sp0 c2 ss2 _ hstar, if_pos hm]
        exact hIH
  | case4 ch p2 c s2 hstar hm x h2 h3 =>
    have hch : ch ≠ '*' := fun hc => hstar hc
    show globLoop (ch :: p2) (c :: s2) none x = globSpec (ch :: p2) (c :: s2)
    rw [globLoop.eq_3 ch p2 c s2 _ hstar, if_neg hm,
      globSpec_cons_nomatch ch p2 c s2 hch hm]
  | case5 ch p2 c s2 hstar hm sp hle h2 h3 h4 h5 =>
    exact absurd hle (by simp)
  | case6 ch p2 c s2 hstar hm sp c2 ss2 hle hh h3 h4 h5 ih =>
    have hch : ch ≠ '*' := fun hc => hstar hc
    obtain ⟨v, u, hsp, hss, hcm, hv⟩ := hinv sp (c2 :: ss2) rfl
    have hIH := ih (fun sp2 ssx hss2 => by
      simp only [Option.some.injEq, Prod.mk.injEq] at hss2
      exact ⟨[], [], by simp [hss2.1], by simp [hss2.2], rfl, by simp⟩)
    show globLoop (ch :: p2) (c :: s2) (some (sp, c2 :: ss2)) hh =
      globSpec ('*' :: sp) (c2 :: ss2)
    rw [globLoop.eq_5 ch p2 c s2 sp c2 ss2 _ hstar, if_neg hm]
    refine hIH.trans ?_
    show globSpec ('*' :: sp) ss2 = globSpec ('*' :: sp) (c2 :: ss2)
    have hfail : globSpec sp (c2 :: ss2) = false := by
      rw [hsp]
      exact direct_fail v u (ch :: p2) (c :: s2) c2 ss2 hv hcm hss
        (globSpec_cons_nomatch ch p2 c s2 hch hm)
    exact (star_cons_eq sp c2 ss2 hfail).symm
  | case7 c s2 x h2 h3 =>
    show globLoop [] (c :: s2) none x = globSpec [] (c :: s2)
    rw [globLoop.eq_6]
    simp [globSpec]
  | case8 c s2 sp hle h2 h3 h4 h5 =>
    exact absurd hle (by simp)
  | case9 c s2 sp c2 ss2 hle hh h3 h4 h5 ih =>
    obtain ⟨v, u, hsp, hss, hcm, hv⟩ := hinv sp (c2 :: ss2) rfl
    have hIH := ih (fun sp2 ssx hss2 => by
      simp only [Option.some.injEq, Prod.mk.injEq] at hss2
      exact ⟨[], [], by simp [hss2.1], by simp [hss2.2], rfl, by simp⟩)
    show globLoop [] (c :: s2) (some (sp, c2 :: ss2)) hh =
      globSpec ('*' :: sp) (c2 :: ss2)
    rw [globLoop.eq_8]
    refine hIH.trans ?_
    show globSpec ('*' :: sp) ss2 = globSpec ('*' :: sp) (c2 :: ss2)
    have hfail : globSpec sp (c2 :: ss2) = false := by
      rw [hsp]
      exact direct_fail v u [] (c :: s2) c2 ss2 hv hcm hss (by simp [globSpec])
    exact (star_cons_eq sp c2 ss2 hfail).symm

/-- `zap_matches_filter` (zap.h, lines 2180–2199); `none` models a NULL
pointer. -/
def zap_matches_filter (name pattern : Option (List Char)) : Bool :=
  match pattern with
  | none => true
  | some [] => true
  | some pat =>
    match name with
    | none => false
    | some nm =>
      if pat.any (fun ch => ch = '*' ∨ ch = '?') then
        zap__glob_match pat nm
      else
        strstrB nm pat

/-- The C backtracking matcher agrees with the declarative glob
semantics. -/
theorem zap__glob_match_eq_globSpec (p s : List Char) :
    zap__glob_match p s = globSpec p s :=
  globLoop_eq p s none (fun sp ss hss => Option.noConfusion hss)
    (fun sp ss hss => Option.noConfusion hss)

theorem isPrefixOf_iff (a b : List Char) :
    a.isPrefixOf b = true ↔ ∃ r, b = a ++ r := by
  induction a generalizing b with
  | nil => simp [List.isPrefixOf]
  | cons x a ih =>
    cases b with
    | nil => simp [List.isPrefixOf]
    | cons y b =>
      simp only [List.isPrefixOf, Bool.and_eq_true, beq_iff_eq]
      rw [ih]
      constructor
      · rintro ⟨hxy, r, hr⟩
        exact ⟨r, by rw [hxy, hr]; rfl⟩
      · rintro ⟨r, hr⟩
        simp only [List.cons_append, List.cons.injEq] at hr
        exact ⟨hr.1.symm, r, hr.2⟩

/-- `strstr(hay, needle) != NULL` finds the needle as a contiguous
substring. -/
theorem strstrB_iff (hay needle : List Char) :
    strstrB hay needle = true ↔ ∃ l r, hay = l ++ needle ++ r := by
  unfold strstrB
  rw [List.any_eq_true]
  constructor
  · rintro ⟨t, hmem, ht⟩
    obtain ⟨l, hl⟩ := (List.mem_tails t hay).mp hmem
    obtain ⟨r, hr⟩ := (isPrefixOf_iff needle t).mp ht
    exact ⟨l, r, by rw [← hl, hr, List.append_assoc]⟩
  · rintro ⟨l, r, hlr⟩
    refine ⟨needle ++ r, (List.mem_tails _ _).mpr ⟨l, by rw [hlr, List.append_assoc]⟩, ?_⟩
    exact (isPrefixOf_iff needle (needle ++ r)).mpr ⟨r, rfl⟩

/-! ### Claim C8 -/

/-- C8: a NULL or empty pattern matches every name; a NULL name never
matches a nonempty pattern; a wildcard-free pattern matches exactly when it
occurs as a case-sensitive contiguous substring of the name; a pattern with
wildcards matches exactly the declarative glob semantics (`*` any possibly
empty run, `?` exactly one character); and the three concrete examples of
the spec hold. -/
theorem c8_matches_filter_spec (nm p : List Char) :
    (∀ n : Option (List Char), zap_matches_filter n none = true ∧
        zap_matches_filter n (some []) = true) ∧
      (p ≠ [] → zap_matches_filter none (some p) = false) ∧
      ((p.any (fun ch => ch = '*' ∨ ch = '?')) = false →
        (zap_matches_filter (some nm) (some p) = true ↔
          ∃ l r, nm = l ++ p ++ r)) ∧
      ((p.any (fun ch => ch = '*' ∨ ch = '?')) = true →
        zap_matches_filter (some nm) (some p) = globSpec p nm) ∧
      zap_matches_filter (some (("abc").toList)) (some (("?b?").toList)) =
        true ∧
      zap_matches_filter (some (("abc").toList)) (some (("a*c").toList)) =
        true ∧
      zap_matches_filter (some (("abc").toList)) (some (("??").toList)) =
        false := by
  have hconc : ∀ (a b : List Char),
      (a.any (fun ch => ch = '*' ∨ ch = '?')) = true →
      zap_matches_filter (some b) (some a) = globSpec a b := by
    intro a b ha
    cases a with
    | nil => simp at ha
    | cons c a2 =>
      show (if (c :: a2).any (fun ch => ch = '*' ∨ ch = '?') then
        zap__glob_match (c :: a2) b else strstrB b (c :: a2)) = _
      rw [if_pos ha, zap__glob_match_eq_globSpec]
  refine ⟨fun n => ⟨rfl, rfl⟩, ?_, ?_, hconc p nm, ?_, ?_, ?_⟩
  · intro hp
    cases p with
    | nil => exact absurd rfl hp
    | cons c p2 => rfl
  · intro hw
    cases p with
    | nil =>
      constructor
      · intro _
        exact ⟨[], nm, by simp⟩
      · intro _
        rfl
    | cons c p2 =>
      show (if (c :: p2).any (fun ch => ch = '*' ∨ ch = '?') then
        zap__glob_match (c :: p2) nm else strstrB nm (c :: p2)) = true ↔ _
      rw [if_neg (by rw [hw]; exact fun h => Bool.false_ne_true h)]
      exact strstrB_iff nm (c :: p2)
  · rw [hconc (("?b?").toList) (("abc").toList) (by decide)]
    decide
  · rw [hconc (("a*c").toList) (("abc").toList) (by decide)]
    decide
  · rw [hconc (("??").toList) (("abc").toList) (by decide)]
    decide

/-- Witness instantiating `c8_matches_filter_spec`: the substring case on
`match("abc", "b")`, the NULL-name case, and the glob case on
`match("abc", "a*c")`. -/
theorem c8_matches_filter_spec_witness :
    zap_matches_filter (some (("abc").toList)) none = true ∧
      (zap_matches_filter (some (("abc").toList)) (some (("b").toList)) =
          true ↔
        ∃ l r, ("abc").toList = l ++ ("b").toList ++ r) ∧
      zap_matches_filter none (some (("b").toList)) = false ∧
      zap_matches_filter (some (("abc").toList)) (some (("a*c").toList)) =
        globSpec (("a*c").toList) (("abc").toList) := by
  have h1 := c8_matches_filter_spec (("abc").toList) (("b").toList)
  have h2 := c8_matches_filter_spec (("abc").toList) (("a*c").toList)
  exact ⟨(h1.1 (some (("abc").toList))).1, h1.2.2.1 (by decide),
    h1.2.1 (by decide), h2.2.2.2.1 (by decide)⟩

end Zap
